import Mathlib

/-!
Shallow embedding of the easypdfjs drawing core (path builder, line styles,
kerning compression, text wrap/justification arithmetic, barcode quiet-zone
handling, Code 128 validation, scale-mode conversion).

Numbers are modelled as rationals (`ℚ`): the source performs only linear
arithmetic (sums, differences, products and divisions by constants) on
JavaScript numbers, and the claims under verification are either exact
statements about that arithmetic or explicitly tolerate floating-point error.
JavaScript object identity (the `!==` comparison the source applies to
`LineDashStyle` references) is modelled by an explicit `refId` field.
A PDF page is assumed to exist (`ensurePageExists` passes); all verified
claims concern behaviour after page creation.
-/

namespace EasyPdfM

/-- Line cap styles, from `LineCapStyle.ts` (`Butt = 0`, `Round = 1`, `Square = 2`). -/
inductive LineCap
  | butt
  | round
  | square
deriving DecidableEq, Repr

/-- Line join styles, from `LineJoinStyle.ts` (`Miter`, `Rounded`, `Bevel`). -/
inductive LineJoin
  | miter
  | rounded
  | bevel
deriving DecidableEq, Repr

/-- Dash style, from `LineDashStyle.ts`: an on/off run-length array and a phase,
both in multiples of the line width.  The source compares dash styles by
JavaScript reference (`!==`); the `refId` field models the object reference,
and `cloneLineStyle` preserves it exactly as the source clone shares the
`dashStyle` object. -/
structure LineDashStyle where
  refId : Nat
  arr : List ℚ
  phase : ℚ
deriving DecidableEq, Repr

/-- The preset `LineDashStyle.Solid` (empty array, phase 0). -/
def LineDashStyle.solid : LineDashStyle := ⟨0, [], 0⟩

/-- The distance array multiplied by a value (`multipliedArray`). -/
def LineDashStyle.multipliedArray (d : LineDashStyle) (m : ℚ) : List ℚ :=
  d.arr.map (· * m)

/-- The phase multiplied by a value (`multipliedPhase`). -/
def LineDashStyle.multipliedPhase (d : LineDashStyle) (m : ℚ) : ℚ :=
  d.phase * m

/-- Line style, from `LineStyle.ts`: width, cap, join and dash. -/
structure LineStyle where
  width : ℚ
  capStyle : LineCap
  joinStyle : LineJoin
  dashStyle : LineDashStyle
deriving DecidableEq, Repr

/-- Default line style (`new LineStyle()`): width 0.1, butt cap, miter join, solid dash. -/
def LineStyle.default : LineStyle :=
  ⟨1/10, LineCap.butt, LineJoin.miter, LineDashStyle.solid⟩

/-- Clone of a line style (`cloneLineStyle`): a fresh `LineStyle` object carrying the
same width/cap/join values and the same `dashStyle` reference.  In the value model
this is the identity. -/
def cloneLineStyle (s : LineStyle) : LineStyle := s

/-- A 2-D coordinate `{x, y}` (internal canonical unit: points). -/
structure Point where
  x : ℚ
  y : ℚ
deriving DecidableEq, Repr

/-- Path segments, from the `PathSegment` union in `PathState.ts`. -/
inductive Segment
  | line (endPoint : Point)
  | quadratic (controlPoint : Point) (endPoint : Point)
  | bezier (controlPoint1 : Point) (controlPoint2 : Point) (endPoint : Point)
  | rect (x y width height : ℚ)
deriving DecidableEq, Repr

/-- Content-stream operators the modelled code emits, mirroring the pdf-lib
operator constructors used in the source (colors are abstract handles). -/
inductive Op
  | opMoveTo (x y : ℚ)
  | opLineTo (x y : ℚ)
  | opQuadTo (cx cy x y : ℚ)
  | opBezTo (c1x c1y c2x c2y x y : ℚ)
  | opRect (x y w h : ℚ)
  | opStroke
  | opCloseStroke
  | opFill
  | opEoFill
  | opCloseFillStroke
  | opCloseEoFillStroke
  | opSetLineWidth (w : ℚ)
  | opSetLineCap (c : LineCap)
  | opSetLineJoin (j : LineJoin)
  | opSetDash (arr : List ℚ) (phase : ℚ)
  | opSetStrokingColor (c : Nat)
  | opSetFillingColor (c : Nat)
deriving DecidableEq, Repr

/-- Scale modes, from `ScaleMode.ts` (points, inches, hundredths of an inch). -/
inductive ScaleMode
  | points
  | inches
  | hundredths
deriving DecidableEq, Repr

/-- Converts a value from the current scale mode to points
(`EasyPdfInternal.toPoints`). -/
def toPoints (m : ScaleMode) (v : ℚ) : ℚ :=
  match m with
  | ScaleMode.hundredths => v * (1/100) * 72
  | ScaleMode.inches => v * 72
  | ScaleMode.points => v

/-- Converts a value from points to the current scale mode
(`EasyPdfInternal.fromPoints`). -/
def fromPoints (m : ScaleMode) (v : ℚ) : ℚ :=
  match m with
  | ScaleMode.hundredths => v / 72 * 100
  | ScaleMode.inches => v / 72
  | ScaleMode.points => v

/-- The path-builder state (`PathState`): start point, line style captured at
path open, and the queued segments. -/
structure PathSt where
  start : Point
  startLineStyle : LineStyle
  segments : List Segment
deriving DecidableEq, Repr

/-- Drawing-surface state (`EasyPdfInternal`), restricted to the fields the
verified claims exercise: scale mode, cursor (`positionInternal`, in points),
current line style, last-applied line style cache, stroke/fill colors, the
path-builder state, and the operator stream emitted so far. -/
structure EState where
  scaleMode : ScaleMode
  position : Point
  lineStyle : LineStyle
  lastSetLineStyle : Option LineStyle
  foreColor : Nat
  fillColor : Nat
  path : PathSt
  ops : List Op
deriving DecidableEq, Repr

/-- Operators emitted by `applyLineStyle` (`LineStyleUtils.ts`): each of width,
cap, join is emitted only when it differs from the last-applied style (or no
style was applied yet); the dash pattern is re-emitted when the dash reference
or the width changed, with the array scaled by the width and the phase scaled
by the width when the array is non-empty (else by 0). -/
def applyLineStyleOps (style : LineStyle) (lastSet : Option LineStyle) : List Op :=
  let widthOps : List Op :=
    match lastSet with
    | none => [Op.opSetLineWidth style.width]
    | some l => if l.width = style.width then [] else [Op.opSetLineWidth style.width]
  let capOps : List Op :=
    match lastSet with
    | none => [Op.opSetLineCap style.capStyle]
    | some l => if l.capStyle = style.capStyle then [] else [Op.opSetLineCap style.capStyle]
  let joinOps : List Op :=
    match lastSet with
    | none => [Op.opSetLineJoin style.joinStyle]
    | some l => if l.joinStyle = style.joinStyle then [] else [Op.opSetLineJoin style.joinStyle]
  let dashChanged : Bool :=
    match lastSet with
    | none => true
    | some l => decide (l.dashStyle.refId ≠ style.dashStyle.refId) || decide (l.width ≠ style.width)
  let dashOps : List Op :=
    if dashChanged then
      let multiplied := style.dashStyle.multipliedArray style.width
      [Op.opSetDash multiplied
        (style.dashStyle.multipliedPhase (if multiplied.length > 0 then style.width else 0))]
    else []
  widthOps ++ capOps ++ joinOps ++ dashOps

/-- Applies the current line style to the page (`EasyPdfInternal.setLineStyle`):
emits the diff operators and caches the style as last applied. -/
def setLineStyle (s : EState) : EState :=
  { s with
    ops := s.ops ++ applyLineStyleOps s.lineStyle s.lastSetLineStyle
    lastSetLineStyle := some (cloneLineStyle s.lineStyle) }

/-- The style-difference test of `PathState.checkLineStyleChanged`: width, cap
or join differ by value, or the dash styles are different object references. -/
def lineStyleChanged (a b : LineStyle) : Prop :=
  a.width ≠ b.width ∨ a.capStyle ≠ b.capStyle ∨ a.joinStyle ≠ b.joinStyle ∨
    a.dashStyle.refId ≠ b.dashStyle.refId

instance (a b : LineStyle) : Decidable (lineStyleChanged a b) := by
  unfold lineStyleChanged; infer_instance

/-- The content-stream operator for one queued segment. -/
def segOp : Segment → Op
  | Segment.line e => Op.opLineTo e.x e.y
  | Segment.quadratic c e => Op.opQuadTo c.x c.y e.x e.y
  | Segment.bezier c1 c2 e => Op.opBezTo c1.x c1.y c2.x c2.y e.x e.y
  | Segment.rect x y w h => Op.opRect x y w h

/-- `PathState.generatePathOperators`: a move-to to the path start followed by
one operator per queued segment (the caller clears the segment list). -/
def generatePathOperators (p : PathSt) : List Op :=
  Op.opMoveTo p.start.x p.start.y :: p.segments.map segOp

/-- `PathState.drawLine`: if segments are queued, emits the path operators
followed by a stroke and clears the segments; otherwise does nothing.  The
cursor is not moved and no line-style operators are emitted here. -/
def drawLine (s : EState) : EState :=
  if s.path.segments = [] then s
  else
    { s with
      ops := s.ops ++ generatePathOperators s.path ++ [Op.opStroke]
      path := { s.path with segments := [] } }

/-- `PathState.checkLineStyleChanged`: with queued segments and a changed style,
flushes via `drawLine`, re-opens the path at the current cursor with the current
style and applies it; with no queued segments, (re)captures start point and
style and applies the style. -/
def checkLineStyleChanged (s : EState) : EState :=
  if s.path.segments ≠ [] then
    if lineStyleChanged s.path.startLineStyle s.lineStyle then
      let s1 := drawLine s
      setLineStyle
        { s1 with
          path :=
            { start := s1.position
              startLineStyle := cloneLineStyle s1.lineStyle
              segments := s1.path.segments } }
    else s
  else
    setLineStyle
      { s with
        path :=
          { start := s.position
            startLineStyle := cloneLineStyle s.lineStyle
            segments := s.path.segments } }

/-- `PathState.drawPolygon` (border/fill/even-odd): for a non-empty path, runs
the style check, emits move-to + segment operators and the terminal operator
chosen by the border/eoFill/fill branches (nothing is pushed when all three are
false), clears the segments, and restores the cursor to the path start. -/
def drawPolygon (border fill eoFill : Bool) (s : EState) : EState :=
  if s.path.segments = [] then s
  else
    let s1 := checkLineStyleChanged s
    let pathOps := generatePathOperators s1.path
    let s2 := { s1 with path := { s1.path with segments := [] } }
    let terminal : List Op :=
      if border then
        if eoFill then [Op.opCloseEoFillStroke]
        else if fill then [Op.opCloseFillStroke]
        else [Op.opCloseStroke]
      else if eoFill then [Op.opEoFill]
      else if fill then [Op.opFill]
      else []
    let s3 :=
      if terminal = [] then s2
      else { s2 with ops := s2.ops ++ pathOps ++ terminal }
    { s3 with position := s3.path.start }

/-- `PathState.lineTo`: style check, then queue a line segment. -/
def pathLineTo (p : Point) (s : EState) : EState :=
  let s1 := checkLineStyleChanged s
  { s1 with path := { s1.path with segments := s1.path.segments ++ [Segment.line p] } }

/-- `PathState.quadraticCurveTo`: style check, then queue a quadratic segment. -/
def pathQuadraticCurveTo (c p : Point) (s : EState) : EState :=
  let s1 := checkLineStyleChanged s
  { s1 with path := { s1.path with segments := s1.path.segments ++ [Segment.quadratic c p] } }

/-- `PathState.bezierCurveTo`: style check, then queue a cubic Bezier segment. -/
def pathBezierCurveTo (c1 c2 p : Point) (s : EState) : EState :=
  let s1 := checkLineStyleChanged s
  { s1 with path := { s1.path with segments := s1.path.segments ++ [Segment.bezier c1 c2 p] } }

/-- `PathState.rectangle`: style check, then queue a rectangle segment. -/
def pathRectangle (x y w h : ℚ) (s : EState) : EState :=
  let s1 := checkLineStyleChanged s
  { s1 with path := { s1.path with segments := s1.path.segments ++ [Segment.rect x y w h] } }

/-- Converts an `{x, y}` object to points (`EasyPdfInternal.toPointsObj`). -/
def toPointsObj (m : ScaleMode) (p : Point) : Point :=
  ⟨toPoints m p.x, toPoints m p.y⟩

/-- `EasyPdfInternal.lineTo`: converts to points, queues the segment, and moves
the cursor to the segment's endpoint. -/
def epLineTo (p : Point) (s : EState) : EState :=
  let p' := toPointsObj s.scaleMode p
  let s1 := pathLineTo p' s
  { s1 with position := p' }

/-- `EasyPdfInternal.finishLine`: flushes the open path as a stroke, then
applies the current line style. -/
def finishLine (s : EState) : EState :=
  setLineStyle (drawLine s)

/-- `EasyPdfInternal.finishPolygon`: flushes the path as a closed shape, then
applies the current line style. -/
def finishPolygon (border fill eoFill : Bool) (s : EState) : EState :=
  setLineStyle (drawPolygon border fill eoFill s)

/-- `EasyPdfInternal.moveTo`: finishes any open line, then sets the cursor. -/
def epMoveTo (p : Point) (s : EState) : EState :=
  let s1 := finishLine s
  { s1 with position := toPointsObj s1.scaleMode p }

/-- `EasyPdfInternal.offsetTo`: finishes any open line, then offsets the cursor. -/
def epOffsetTo (p : Point) (s : EState) : EState :=
  let s1 := finishLine s
  let c := toPointsObj s1.scaleMode p
  { s1 with position := ⟨s1.position.x + c.x, s1.position.y + c.y⟩ }

/-- The `position` property setter: sets the cursor directly (no flush). -/
def setPositionProp (p : Point) (s : EState) : EState :=
  { s with position := toPointsObj s.scaleMode p }

/-- The `x` property setter: sets the cursor x coordinate directly (no flush). -/
def setXProp (v : ℚ) (s : EState) : EState :=
  { s with position := ⟨toPoints s.scaleMode v, s.position.y⟩ }

/-- The `y` property setter: sets the cursor y coordinate directly (no flush). -/
def setYProp (v : ℚ) (s : EState) : EState :=
  { s with position := ⟨s.position.x, toPoints s.scaleMode v⟩ }

/-- The `foreColor` property setter: finishes any open line, emits the stroking
color operator, and stores the color. -/
def setForeColorProp (c : Nat) (s : EState) : EState :=
  let s1 := finishLine s
  { s1 with ops := s1.ops ++ [Op.opSetStrokingColor c], foreColor := c }

/-- The `fillColor` property setter: finishes any open line, emits the filling
color operator, and stores the color. -/
def setFillColorProp (c : Nat) (s : EState) : EState :=
  let s1 := finishLine s
  { s1 with ops := s1.ops ++ [Op.opSetFillingColor c], fillColor := c }

/-! ### Kerning-pair compression (`FontUtils.ts`, `compressKerningPairs`) -/

/-- A kerning-pair code: a single code point or a merged list of code points
(the source stores `number | number[]`). -/
inductive KCode
  | single (n : Nat)
  | multi (ns : List Nat)
deriving DecidableEq, Repr

/-- A kerning pair: a code (or merged codes) and a signed adjustment in
1000ths of the font size. -/
structure KerningPair where
  code : KCode
  adjustment : ℚ
deriving DecidableEq, Repr

/-- Joins a zero-adjustment pair's code onto the previous pair's code; the
result is always an array, as in the source's four merge branches. -/
def mergeCode : KCode → KCode → KCode
  | KCode.multi a, KCode.multi b => KCode.multi (a ++ b)
  | KCode.multi a, KCode.single b => KCode.multi (a ++ [b])
  | KCode.single a, KCode.multi b => KCode.multi (a :: b)
  | KCode.single a, KCode.single b => KCode.multi [a, b]

/-- The loop of `compressKerningPairs`: `cur` is the last pushed pair
(`currentPair`); a zero-adjustment pair is merged into it, a non-zero pair
starts a new entry. -/
def compressLoop (cur : KerningPair) : List KerningPair → List KerningPair
  | [] => [cur]
  | p :: ps =>
    if p.adjustment = 0 then
      compressLoop ⟨mergeCode cur.code p.code, cur.adjustment⟩ ps
    else
      cur :: compressLoop p ps

/-- `compressKerningPairs`: an input of length at most 1 (the first two cases)
is returned unchanged, exactly as the source's `pairs.length <= 1` early
return; otherwise the first pair seeds the loop. -/
def compressKerningPairs : List KerningPair → List KerningPair
  | [] => []
  | [p] => [p]
  | p :: ps => compressLoop p ps

/-! ### Text wrapping and justification (`FontUtils.ts`, `writeWrapped` and
`writeLineInternal`)

Text is modelled as `List Char`.  The text-width oracle `m : List Char → ℚ`
stands for `getTextWidth` (an external font-metrics computation); `corr`
stands for `fromPoints(font.characterSpacing * font.stretchX)`, the trailing
character-spacing correction the source subtracts from candidate line widths. -/

/-- JavaScript `text.split(" ")`: splits on every single space, keeping empty
fragments, and yields `[""]` for the empty string. -/
def splitOnSp : List Char → List (List Char)
  | [] => [[]]
  | c :: cs =>
    if c = ' ' then [] :: splitOnSp cs
    else
      match splitOnSp cs with
      | [] => [[c]]
      | w :: ws => (c :: w) :: ws

/-- JavaScript `words.join(" ")`. -/
def joinSp : List (List Char) → List Char
  | [] => []
  | [w] => w
  | w :: ws => w ++ ' ' :: joinSp ws

/-- The number of spaces counted by `writeLineInternal`
(`text.split(" ").length - 1`). -/
def countSpaces (text : List Char) : Nat :=
  (splitOnSp text).length - 1

/-- The line width the source's embedded-font branch accounts with: word widths
plus one space width between adjacent words. -/
def lineWidthSum (m : List Char → ℚ) : List (List Char) → ℚ
  | [] => 0
  | [w] => m w
  | w :: ws => m w + m [' '] + lineWidthSum m ws

/-- The greedy word-wrap loop of `writeWrapped`.  `cl`/`cw` are
`currentLine`/`currentLineWidth`.  For embedded fonts the candidate width is
the running sum plus a space width plus the word's width; for standard fonts it
is the measured width of `currentLine.join(" ") + " " + word`; both minus the
trailing character-spacing correction `corr`.  When the candidate exceeds `W`
and the current line is non-empty, the line is flushed with justification
width `W`; the final line is emitted with no justification width. -/
def wrapLoop (embedded : Bool) (m : List Char → ℚ) (corr W : ℚ) :
    List (List Char) → List (List Char) → ℚ → List (List (List Char) × Option ℚ)
  | [], cl, _ => [(cl, none)]
  | w :: ws, cl, cw =>
    let wordWidth : ℚ := if embedded then m w else 0
    let potential : ℚ :=
      (if embedded then cw + (if cl = [] then 0 else m [' ']) + m w
       else m (joinSp cl ++ ' ' :: w)) - corr
    if cl ≠ [] ∧ potential > W then
      (cl, some W) :: wrapLoop embedded m corr W ws [w] wordWidth
    else
      wrapLoop embedded m corr W ws (cl ++ [w])
        (cw + (if cl = [] then 0 else m [' ']) + wordWidth)

/-- `writeWrapped` on a non-empty text: split into words and run the greedy
loop with an empty current line.  Each emitted pair is a rendered line together
with the justification width passed to `writeLineInternal` (`some W` for
flushed intermediate lines, `none` for the final line). -/
def writeWrappedLines (embedded : Bool) (m : List Char → ℚ) (corr W : ℚ)
    (text : List Char) : List (List (List Char) × Option ℚ) :=
  wrapLoop embedded m corr W (splitOnSp text) [] 0

/-- Result of the width/word-spacing computation in `writeLineInternal`. -/
structure JustifyResult where
  width : ℚ
  wordSpacing : ℚ
deriving DecidableEq, Repr

/-- The justification arithmetic of `writeLineInternal`: starting from the
natural width, when `font.justify` is set and a justification width was
supplied, the trailing character-spacing correction is subtracted; then, when
the line contains at least one space, the word spacing becomes
`(justifyWidth - width) / spaceCount / stretchX` and the width becomes the
justification width. -/
def computeJustify (justify : Bool) (justifyWidth : Option ℚ) (corr stretchX : ℚ)
    (text : List Char) (naturalWidth : ℚ) : JustifyResult :=
  match justifyWidth, justify with
  | some jw, true =>
    let w := naturalWidth - corr
    let sc := countSpaces text
    if 0 < sc then ⟨jw, (jw - w) / sc / stretchX⟩ else ⟨w, 0⟩
  | _, _ => ⟨naturalWidth, 0⟩

/-! ### Barcode quiet-zone handling (`BarcodeUtils.ts`) -/

/-- Quiet-zone detection for 1-D barcodes (`drawBarcode`): the pattern has at
least 10 bars and the 10 bars at each end are all light. -/
def hasQuietZone1D (p : List Bool) : Bool :=
  decide (10 ≤ p.length) &&
    (List.range 10).all (fun i => !(p.getD i false) && !(p.getD (p.length - 1 - i) false))

/-- Quiet-zone adjustment for 1-D barcodes: strip a detected margin when the
quiet zone is not wanted (keep indices `10 .. length-11`), synthesize 10 light
bars on each side when wanted but absent, otherwise keep the pattern. -/
def adjustQuietZone1D (p : List Bool) (includeQZ : Bool) : List Bool :=
  let hq := hasQuietZone1D p
  if hq && !includeQZ then
    (p.drop 10).take (p.length - 20)
  else if !hq && includeQZ then
    List.replicate 10 false ++ p ++ List.replicate 10 false
  else p

/-- Quiet-zone detection for QR matrices (`drawQRCode`): no dark module in the
outer 4 rows and columns on all four sides. -/
def hasQuietZone2D (n : Nat) (dark : Nat → Nat → Bool) : Bool :=
  (List.range n).all (fun x =>
    (List.range 4).all (fun y =>
      !dark y x && !dark (n - 1 - y) x && !dark x y && !dark x (n - 1 - y)))

/-- Quiet-zone adjustment for QR matrices: reject an empty matrix; strip a
detected 4-module margin when unwanted (rejecting matrices that become empty);
synthesize a 4-module light margin when wanted but absent. -/
def adjustQuietZone2D (n : Nat) (dark : Nat → Nat → Bool) (includeQZ : Bool) :
    Except String (Nat × (Nat → Nat → Bool)) :=
  if n = 0 then Except.error "QR code matrix cannot be empty"
  else
    let hq := hasQuietZone2D n dark
    if hq && !includeQZ then
      if n ≤ 8 then Except.error "QR code matrix is too small after removing quiet zone"
      else Except.ok (n - 8, fun row col => dark (row + 4) (col + 4))
    else if !hq && includeQZ then
      Except.ok (n + 8, fun row col =>
        if row < 4 ∨ n + 4 ≤ row ∨ col < 4 ∨ n + 4 ≤ col then false
        else dark (row - 4) (col - 4))
    else Except.ok (n, dark)

/-! ### Code 128 encoding (`createCode128`) -/

/-- The Code 128A character set: ASCII `0x20`–`0x5F` followed by the control
characters `0x00`–`0x1F`. -/
def code128A : List Char :=
  (List.range 0x40).map (fun i => Char.ofNat (0x20 + i)) ++
    (List.range 0x20).map Char.ofNat

/-- The Code 128B character set: ASCII `0x20`–`0x7F`. -/
def code128B : List Char :=
  (List.range 0x60).map (fun i => Char.ofNat (0x20 + i))

/-- All characters encodable by Code 128 A or B. -/
def possibleChars : List Char := code128A ++ code128B

/-- The Code 128 bit patterns for symbols 0–106 (index 106 is the stop code
with its 2-bit termination appended). -/
def patterns : List String :=
  ["11011001100", "11001101100", "11001100110", "10010011000", "10010001100",
   "10001001100", "10011001000", "10011000100", "10001100100", "11001001000",
   "11001000100", "11000100100", "10110011100", "10011011100", "10011001110",
   "10111001100", "10011101100", "10011100110", "11001110010", "11001011100",
   "11001001110", "11011100100", "11001110100", "11101101110", "11101001100",
   "11100101100", "11100100110", "11101100100", "11100110100", "11100110010",
   "11011011000", "11011000110", "11000110110", "10100011000", "10001011000",
   "10001000110", "10110001000", "10001101000", "10001100010", "11010001000",
   "11000101000", "11000100010", "10110111000", "10110001110", "10001101110",
   "10111011000", "10111000110", "10001110110", "11101110110", "11010001110",
   "11000101110", "11011101000", "11011100010", "11011101110", "11101011000",
   "11101000110", "11100010110", "11101101000", "11101100010", "11100011010",
   "11101111010", "11001000010", "11110001010", "10100110000", "10100001100",
   "10010110000", "10010000110", "10000101100", "10000100110", "10110010000",
   "10110000100", "10011010000", "10011000010", "10000110100", "10000110010",
   "11000010010", "11001010000", "11110111010", "11000010100", "10001111010",
   "10100111100", "10010111100", "10010011110", "10111100100", "10011110100",
   "10011110010", "11110100100", "11110010100", "11110010010", "11011011110",
   "11011110110", "11110110110", "10101111000", "10100011110", "10001011110",
   "10111101000", "10111100010", "11110101000", "11110100010", "10111011110",
   "10111101110", "11101011110", "11110101110", "11010000100", "11010010000",
   "11010011100", "1100011101011"]

/-- Code set selector for `encodeWithCode`. -/
inductive CodeSet
  | A
  | B
deriving DecidableEq, Repr

/-- `encodeWithCode`: encodes characters in the current code set, emitting a
switch symbol (100 to B, 101 to A) and retrying in the other set when a
character is absent from the current set.  `fuel` bounds the recursion; for
inputs whose characters all lie in `possibleChars` the fuel is never the
limiting factor. -/
def encodeWithCode : Nat → List Char → CodeSet → List Nat
  | 0, _, _ => []
  | _, [], _ => []
  | fuel + 1, c :: cs, set =>
    let charSet := if set = CodeSet.A then code128A else code128B
    match charSet.findIdx? (· = c) with
    | some i => i :: encodeWithCode fuel cs set
    | none =>
      (if set = CodeSet.A then 100 else 101) ::
        encodeWithCode fuel (c :: cs)
          (if set = CodeSet.A then CodeSet.B else CodeSet.A)

/-- The digit-pair loop of `encodeWithCodeC`: converts leading digit pairs to
Code C symbols and returns the remaining characters. -/
def codeCPairs : List Char → List Nat × List Char
  | a :: b :: rest =>
    if a.isDigit ∧ b.isDigit then
      let (cs, rem) := codeCPairs rest
      (((a.toNat - 0x30) * 10 + (b.toNat - 0x30)) :: cs, rem)
    else ([], a :: b :: rest)
  | rest => ([], rest)

/-- The checksum of `createCode128`: first symbol weighted 1, symbol `i ≥ 1`
weighted `i`, summed modulo 103. -/
def checksumOf (codes : List Nat) : Nat :=
  (match codes with
   | [] => 0
   | c :: rest => c + ((rest.enumFrom 1).map (fun p => p.1 * p.2)).sum) % 103

/-- `createCode128`: rejects the empty input, rejects inputs containing a
character outside the Code 128 A/B repertoire, then encodes (starting in
Code C when the input begins with four digits, else in B or A according to the
first character), appends checksum and stop code, and joins the bit patterns. -/
def createCode128 (data : List Char) : Except String String :=
  if data = [] then Except.error "Input cannot be empty"
  else if ¬ data.all (fun c => possibleChars.contains c) then
    Except.error "Input contains characters that cannot be encoded with Code 128"
  else
    let codes : List Nat :=
      if 4 ≤ data.length ∧ (data.take 4).all Char.isDigit then
        let (cs, rest) := codeCPairs data
        105 :: cs ++
          (match rest with
           | [] => []
           | c :: _ =>
             let set := if code128B.contains c then CodeSet.B else CodeSet.A
             (if set = CodeSet.B then 100 else 101) ::
               encodeWithCode (2 * rest.length + 2) rest set)
      else
        match data with
        | [] => []
        | c :: _ =>
          let set := if code128B.contains c then CodeSet.B else CodeSet.A
          (if set = CodeSet.B then 104 else 103) ::
            encodeWithCode (2 * data.length + 2) data set
    let withTail := codes ++ [checksumOf codes, 106]
    Except.ok (String.join (withTail.map (fun i => patterns.getD i "")))

/-! ### Specification-side descriptions and concrete states used by witnesses -/

/-- Specification-side description of the state after a mid-path style change
is handled by a segment-adding call: the queued segments are flushed as a
stroke (move-to, segment operators, stroke) *before* any operator of the new
style is emitted, the new style's diff operators follow, the path is re-opened
at the current cursor with the current style captured, and `segs` are the
newly queued segments. -/
def snapshotFlushResult (s : EState) (segs : List Segment) : EState :=
  { s with
    ops := s.ops ++ generatePathOperators s.path ++ [Op.opStroke] ++
      applyLineStyleOps s.lineStyle s.lastSetLineStyle
    lastSetLineStyle := some s.lineStyle
    path := ⟨s.position, s.lineStyle, segs⟩ }

/-- Specification-side decision table for the terminal operator of
`drawPolygon`, with the even-odd flag taking precedence over the fill flag in
the border branch, as the source's branch order dictates. -/
def polygonTerminal (border fill eoFill : Bool) : Option Op :=
  if border then
    some (if eoFill then Op.opCloseEoFillStroke
          else if fill then Op.opCloseFillStroke
          else Op.opCloseStroke)
  else if eoFill then some Op.opEoFill
  else if fill then some Op.opFill
  else none

/-- A concrete surface state with one queued segment whose path-open style
(width 1/10) differs from the active style (width 2). -/
def c1State : EState :=
  { scaleMode := ScaleMode.points
    position := ⟨5, 7⟩
    lineStyle := ⟨2, LineCap.butt, LineJoin.miter, LineDashStyle.solid⟩
    lastSetLineStyle := some ⟨1, LineCap.butt, LineJoin.miter, LineDashStyle.solid⟩
    foreColor := 0
    fillColor := 0
    path := ⟨⟨0, 0⟩, ⟨1, LineCap.butt, LineJoin.miter, LineDashStyle.solid⟩, [Segment.line ⟨5, 7⟩]⟩
    ops := [] }

/-- A concrete surface state with one queued segment and an unchanged style. -/
def c2State : EState :=
  { scaleMode := ScaleMode.points
    position := ⟨1, 0⟩
    lineStyle := ⟨1, LineCap.butt, LineJoin.miter, LineDashStyle.solid⟩
    lastSetLineStyle := some ⟨1, LineCap.butt, LineJoin.miter, LineDashStyle.solid⟩
    foreColor := 0
    fillColor := 0
    path := ⟨⟨0, 0⟩, ⟨1, LineCap.butt, LineJoin.miter, LineDashStyle.solid⟩, [Segment.line ⟨1, 0⟩]⟩
    ops := [] }

/-- A concrete surface state with one queued segment and an unchanged style,
used to exercise the polygon cursor restoration. -/
def c4State : EState :=
  { scaleMode := ScaleMode.points
    position := ⟨3, 4⟩
    lineStyle := ⟨1, LineCap.butt, LineJoin.miter, LineDashStyle.solid⟩
    lastSetLineStyle := some ⟨1, LineCap.butt, LineJoin.miter, LineDashStyle.solid⟩
    foreColor := 0
    fillColor := 0
    path := ⟨⟨2, 2⟩, ⟨1, LineCap.butt, LineJoin.miter, LineDashStyle.solid⟩, [Segment.line ⟨3, 4⟩]⟩
    ops := [] }

/-- A concrete surface state with a pending open path (one queued segment). -/
def c5State : EState :=
  { scaleMode := ScaleMode.points
    position := ⟨6, 6⟩
    lineStyle := ⟨1, LineCap.butt, LineJoin.miter, LineDashStyle.solid⟩
    lastSetLineStyle := some ⟨1, LineCap.butt, LineJoin.miter, LineDashStyle.solid⟩
    foreColor := 0
    fillColor := 0
    path := ⟨⟨0, 0⟩, ⟨1, LineCap.butt, LineJoin.miter, LineDashStyle.solid⟩, [Segment.line ⟨6, 6⟩]⟩
    ops := [] }

/-- A concrete surface state with a pending open path for the amended
flush-before-state-change theorem's witness. -/
def c5bState : EState :=
  { scaleMode := ScaleMode.points
    position := ⟨8, 1⟩
    lineStyle := ⟨1, LineCap.butt, LineJoin.miter, LineDashStyle.solid⟩
    lastSetLineStyle := some ⟨1, LineCap.butt, LineJoin.miter, LineDashStyle.solid⟩
    foreColor := 2
    fillColor := 3
    path := ⟨⟨0, 1⟩, ⟨1, LineCap.butt, LineJoin.miter, LineDashStyle.solid⟩, [Segment.line ⟨8, 1⟩]⟩
    ops := [] }

/-! ### Helper lemmas -/

theorem compressLoop_ne_nil (rest : List KerningPair) (cur : KerningPair) :
    compressLoop cur rest ≠ [] := by
  induction rest generalizing cur with
  | nil => simp [compressLoop]
  | cons p ps ih =>
    simp only [compressLoop]
    split
    · exact ih _
    · simp

theorem compressLoop_head_adjustment (rest : List KerningPair) (cur : KerningPair) :
    ∃ k tl, compressLoop cur rest = ⟨k, cur.adjustment⟩ :: tl := by
  induction rest generalizing cur with
  | nil => exact ⟨cur.code, [], rfl⟩
  | cons p ps ih =>
    simp only [compressLoop]
    split
    · exact ih _
    · exact ⟨cur.code, _, rfl⟩

theorem compressLoop_tail_nonzero (rest : List KerningPair) (cur : KerningPair) :
    ∀ q ∈ (compressLoop cur rest).tail, q.adjustment ≠ 0 := by
  induction rest generalizing cur with
  | nil => simp [compressLoop]
  | cons p ps ih =>
    simp only [compressLoop]
    split
    · exact ih _
    · intro q hq
      rename_i hadj
      obtain ⟨k, tl, heq⟩ := compressLoop_head_adjustment ps p
      simp only [List.tail_cons] at hq
      rw [heq] at hq
      rcases List.mem_cons.mp hq with rfl | hq'
      · simpa using hadj
      · have := ih p q
        rw [heq] at this
        exact this (by simpa using hq')

theorem compressLoop_of_nonzero (rest : List KerningPair) (cur : KerningPair)
    (h : ∀ q ∈ rest, q.adjustment ≠ 0) : compressLoop cur rest = cur :: rest := by
  induction rest generalizing cur with
  | nil => rfl
  | cons p ps ih =>
    simp only [compressLoop]
    rw [if_neg (h p (List.mem_cons_self p ps))]
    rw [ih p (fun q hq => h q (List.mem_cons_of_mem p hq))]

theorem checkLineStyleChanged_of_changed (s : EState)
    (hseg : s.path.segments ≠ [])
    (hst : lineStyleChanged s.path.startLineStyle s.lineStyle) :
    checkLineStyleChanged s = snapshotFlushResult s [] := by
  rw [checkLineStyleChanged, if_pos hseg, if_pos hst, drawLine, if_neg hseg]
  rfl

theorem checkLineStyleChanged_of_same (s : EState)
    (hseg : s.path.segments ≠ [])
    (hst : ¬ lineStyleChanged s.path.startLineStyle s.lineStyle) :
    checkLineStyleChanged s = s := by
  rw [checkLineStyleChanged, if_pos hseg, if_neg hst]

theorem drawPolygon_of_same (b f e : Bool) (s : EState)
    (hseg : s.path.segments ≠ [])
    (hst : ¬ lineStyleChanged s.path.startLineStyle s.lineStyle) :
    drawPolygon b f e s =
      { s with
        ops := s.ops ++ ((polygonTerminal b f e).elim []
          (fun t => generatePathOperators s.path ++ [t]))
        path := { s.path with segments := [] }
        position := s.path.start } := by
  rw [drawPolygon, if_neg hseg, checkLineStyleChanged_of_same s hseg hst]
  cases b <;> cases f <;> cases e <;> simp [polygonTerminal]

theorem finishLine_of_pending (s : EState) (hseg : s.path.segments ≠ []) :
    finishLine s =
      { s with
        ops := s.ops ++ generatePathOperators s.path ++ [Op.opStroke] ++
          applyLineStyleOps s.lineStyle s.lastSetLineStyle
        lastSetLineStyle := some s.lineStyle
        path := { s.path with segments := [] } } := by
  rw [finishLine, drawLine, if_neg hseg]
  rfl

theorem finishLine_position (s : EState) : (finishLine s).position = s.position := by
  rw [finishLine, drawLine]
  split <;> rfl

theorem splitOnSp_ne_nil (t : List Char) : splitOnSp t ≠ [] := by
  induction t with
  | nil => simp [splitOnSp]
  | cons c cs ih =>
    rw [splitOnSp]
    split
    · simp
    · match hcs : splitOnSp cs with
      | [] => simp
      | w :: ws => simp

theorem length_splitOnSp (t : List Char) :
    (splitOnSp t).length = t.count ' ' + 1 := by
  induction t with
  | nil => simp [splitOnSp]
  | cons c cs ih =>
    rw [splitOnSp]
    by_cases hc : c = ' '
    · rw [if_pos hc]
      subst hc
      simp [List.count_cons, ih]
    · rw [if_neg hc]
      match hcs : splitOnSp cs with
      | [] => exact absurd hcs (splitOnSp_ne_nil cs)
      | w :: ws =>
        rw [hcs] at ih
        simp only [List.length_cons] at ih ⊢
        simp [List.count_cons, hc, ih]

theorem lineWidthSum_append (m : List Char → ℚ) (w : List Char) :
    ∀ cl : List (List Char), cl ≠ [] →
      lineWidthSum m (cl ++ [w]) = lineWidthSum m cl + m [' '] + m w
  | [], h => absurd rfl h
  | [x], _ => by simp [lineWidthSum]
  | x :: y :: ys, _ => by
    have ih := lineWidthSum_append m w (y :: ys) (by simp)
    show m x + m [' '] + lineWidthSum m ((y :: ys) ++ [w]) =
      m x + m [' '] + lineWidthSum m (y :: ys) + m [' '] + m w
    rw [ih]
    ring

theorem joinSp_append (w : List Char) :
    ∀ cl : List (List Char), cl ≠ [] →
      joinSp (cl ++ [w]) = joinSp cl ++ ' ' :: w
  | [], h => absurd rfl h
  | [x], _ => by simp [joinSp]
  | x :: y :: ys, _ => by
    have ih := joinSp_append w (y :: ys) (by simp)
    show x ++ ' ' :: joinSp ((y :: ys) ++ [w]) = (x ++ ' ' :: joinSp (y :: ys)) ++ ' ' :: w
    rw [ih]
    simp

theorem wrapLoop_cons_t (m : List Char → ℚ) (corr W : ℚ)
    (w : List Char) (ws cl : List (List Char)) (cw : ℚ) :
    wrapLoop true m corr W (w :: ws) cl cw =
      if cl ≠ [] ∧ cw + (if cl = [] then 0 else m [' ']) + m w - corr > W then
        (cl, some W) :: wrapLoop true m corr W ws [w] (m w)
      else wrapLoop true m corr W ws (cl ++ [w])
        (cw + (if cl = [] then 0 else m [' ']) + m w) := by
  rw [wrapLoop]
  rfl

theorem wrapLoop_cons_f (m : List Char → ℚ) (corr W : ℚ)
    (w : List Char) (ws cl : List (List Char)) (cw : ℚ) :
    wrapLoop false m corr W (w :: ws) cl cw =
      if cl ≠ [] ∧ m (joinSp cl ++ ' ' :: w) - corr > W then
        (cl, some W) :: wrapLoop false m corr W ws [w] 0
      else wrapLoop false m corr W ws (cl ++ [w])
        (cw + (if cl = [] then 0 else m [' ']) + 0) := by
  rw [wrapLoop]
  rfl

theorem wrapLoop_ne_nil (e : Bool) (m : List Char → ℚ) (corr W : ℚ)
    (ws : List (List Char)) :
    ∀ (cl : List (List Char)) (cw : ℚ), wrapLoop e m corr W ws cl cw ≠ [] := by
  induction ws with
  | nil => intro cl cw; simp [wrapLoop]
  | cons w ws ih =>
    intro cl cw
    cases e with
    | true =>
      rw [wrapLoop_cons_t]
      by_cases hcond : cl ≠ [] ∧ cw + (if cl = [] then 0 else m [' ']) + m w - corr > W
      · rw [if_pos hcond]; simp
      · rw [if_neg hcond]; exact ih _ _
    | false =>
      rw [wrapLoop_cons_f]
      by_cases hcond : cl ≠ [] ∧ m (joinSp cl ++ ' ' :: w) - corr > W
      · rw [if_pos hcond]; simp
      · rw [if_neg hcond]; exact ih _ _

theorem wrapLoop_getLast_none (e : Bool) (m : List Char → ℚ) (corr W : ℚ)
    (ws : List (List Char)) :
    ∀ (cl : List (List Char)) (cw : ℚ),
      ∃ l, (wrapLoop e m corr W ws cl cw).getLast? = some (l, none) := by
  induction ws with
  | nil => intro cl cw; exact ⟨cl, by simp [wrapLoop]⟩
  | cons w ws ih =>
    intro cl cw
    cases e with
    | true =>
      rw [wrapLoop_cons_t]
      by_cases hcond : cl ≠ [] ∧ cw + (if cl = [] then 0 else m [' ']) + m w - corr > W
      · rw [if_pos hcond]
        obtain ⟨l, hl⟩ := ih [w] (m w)
        refine ⟨l, ?_⟩
        match hrec : wrapLoop true m corr W ws [w] (m w) with
        | [] => exact absurd hrec (wrapLoop_ne_nil true m corr W ws [w] (m w))
        | r :: rs =>
          rw [hrec] at hl
          rw [List.getLast?_cons_cons]
          exact hl
      · rw [if_neg hcond]; exact ih _ _
    | false =>
      rw [wrapLoop_cons_f]
      by_cases hcond : cl ≠ [] ∧ m (joinSp cl ++ ' ' :: w) - corr > W
      · rw [if_pos hcond]
        obtain ⟨l, hl⟩ := ih [w] 0
        refine ⟨l, ?_⟩
        match hrec : wrapLoop false m corr W ws [w] 0 with
        | [] => exact absurd hrec (wrapLoop_ne_nil false m corr W ws [w] 0)
        | r :: rs =>
          rw [hrec] at hl
          rw [List.getLast?_cons_cons]
          exact hl
      · rw [if_neg hcond]; exact ih _ _

theorem wrapLoop_dropLast_some (e : Bool) (m : List Char → ℚ) (corr W : ℚ)
    (ws : List (List Char)) :
    ∀ (cl : List (List Char)) (cw : ℚ),
      ∀ pr ∈ (wrapLoop e m corr W ws cl cw).dropLast, pr.2 = some W := by
  induction ws with
  | nil => intro cl cw; simp [wrapLoop]
  | cons w ws ih =>
    intro cl cw
    cases e with
    | true =>
      rw [wrapLoop_cons_t]
      by_cases hcond : cl ≠ [] ∧ cw + (if cl = [] then 0 else m [' ']) + m w - corr > W
      · rw [if_pos hcond]
        intro pr hpr
        match hrec : wrapLoop true m corr W ws [w] (m w) with
        | [] => exact absurd hrec (wrapLoop_ne_nil true m corr W ws [w] (m w))
        | r :: rs =>
          rw [hrec, List.dropLast_cons₂] at hpr
          rcases List.mem_cons.mp hpr with heq | hpr'
          · rw [heq]
          · have hrest := ih [w] (m w) pr
            rw [hrec] at hrest
            exact hrest hpr'
      · rw [if_neg hcond]; exact ih _ _
    | false =>
      rw [wrapLoop_cons_f]
      by_cases hcond : cl ≠ [] ∧ m (joinSp cl ++ ' ' :: w) - corr > W
      · rw [if_pos hcond]
        intro pr hpr
        match hrec : wrapLoop false m corr W ws [w] 0 with
        | [] => exact absurd hrec (wrapLoop_ne_nil false m corr W ws [w] 0)
        | r :: rs =>
          rw [hrec, List.dropLast_cons₂] at hpr
          rcases List.mem_cons.mp hpr with heq | hpr'
          · rw [heq]
          · have hrest := ih [w] 0 pr
            rw [hrec] at hrest
            exact hrest hpr'
      · rw [if_neg hcond]; exact ih _ _

theorem wrapLoop_bound (e : Bool) (m : List Char → ℚ) (corr W : ℚ)
    (hcorr : 0 ≤ corr) (ws : List (List Char)) :
    ∀ (cl : List (List Char)) (cw : ℚ),
      (∀ w ∈ ws, m w ≤ W) →
      (e = true → cw = lineWidthSum m cl) →
      (cl ≠ [] → (if e = true then cw - corr ≤ W else m (joinSp cl) - corr ≤ W)) →
      ∀ l j, (l, j) ∈ wrapLoop e m corr W ws cl cw → l ≠ [] →
        (if e = true then lineWidthSum m l - corr ≤ W else m (joinSp l) - corr ≤ W) := by
  induction ws with
  | nil =>
    intro cl cw _ hinv2 hinv3 l j hmem hl
    simp only [wrapLoop, List.mem_singleton, Prod.mk.injEq] at hmem
    obtain ⟨rfl, rfl⟩ := hmem
    cases e with
    | true =>
      show lineWidthSum m l - corr ≤ W
      rw [← hinv2 rfl]
      exact hinv3 hl
    | false =>
      show m (joinSp l) - corr ≤ W
      exact hinv3 hl
  | cons w ws ih =>
    intro cl cw hws hinv2 hinv3 l j hmem hl
    have hw : m w ≤ W := hws w (List.mem_cons_self w ws)
    have hws2 : ∀ u ∈ ws, m u ≤ W := fun u hu => hws u (List.mem_cons_of_mem w hu)
    cases e with
    | true =>
      rw [wrapLoop_cons_t] at hmem
      by_cases hcond : cl ≠ [] ∧ cw + (if cl = [] then 0 else m [' ']) + m w - corr > W
      · rw [if_pos hcond] at hmem
        rcases List.mem_cons.mp hmem with heq | hmem2
        · simp only [Prod.mk.injEq] at heq
          obtain ⟨rfl, rfl⟩ := heq
          show lineWidthSum m l - corr ≤ W
          rw [← hinv2 rfl]
          exact hinv3 hl
        · refine ih [w] (m w) hws2 (fun _ => by simp [lineWidthSum]) ?_ l j hmem2 hl
          intro _
          show m w - corr ≤ W
          linarith
      · rw [if_neg hcond] at hmem
        refine ih (cl ++ [w]) (cw + (if cl = [] then 0 else m [' ']) + m w) hws2 ?_ ?_ l j hmem hl
        · intro _
          by_cases hcl : cl = []
          · subst hcl
            rw [hinv2 rfl]
            simp [lineWidthSum]
          · rw [lineWidthSum_append m w cl hcl, ← hinv2 rfl, if_neg hcl]
        · intro _
          show cw + (if cl = [] then 0 else m [' ']) + m w - corr ≤ W
          by_cases hcl : cl = []
          · subst hcl
            have hcw : cw = 0 := by rw [hinv2 rfl]; rfl
            rw [hcw, if_pos rfl]
            linarith
          · have hle : ¬ cw + (if cl = [] then 0 else m [' ']) + m w - corr > W :=
              fun hgt => hcond ⟨hcl, hgt⟩
            linarith
    | false =>
      rw [wrapLoop_cons_f] at hmem
      by_cases hcond : cl ≠ [] ∧ m (joinSp cl ++ ' ' :: w) - corr > W
      · rw [if_pos hcond] at hmem
        rcases List.mem_cons.mp hmem with heq | hmem2
        · simp only [Prod.mk.injEq] at heq
          obtain ⟨rfl, rfl⟩ := heq
          show m (joinSp l) - corr ≤ W
          exact hinv3 hl
        · refine ih [w] 0 hws2 (fun hfalse => by exact absurd hfalse (by simp)) ?_ l j hmem2 hl
          intro _
          show m (joinSp [w]) - corr ≤ W
          show m w - corr ≤ W
          linarith
      · rw [if_neg hcond] at hmem
        refine ih (cl ++ [w]) (cw + (if cl = [] then 0 else m [' ']) + 0) hws2
          (fun hfalse => by exact absurd hfalse (by simp)) ?_ l j hmem hl
        intro _
        by_cases hcl : cl = []
        · subst hcl
          show m (joinSp [w]) - corr ≤ W
          show m w - corr ≤ W
          linarith
        · show m (joinSp (cl ++ [w])) - corr ≤ W
          rw [joinSp_append w cl hcl]
          have hle : ¬ m (joinSp cl ++ ' ' :: w) - corr > W := fun hgt => hcond ⟨hcl, hgt⟩
          linarith

end EasyPdfM

namespace EasyPdfM

/-! ### Claim theorems -/

/-- C10: for every value `v` and every supported scale mode (points, inches,
hundredths), `fromPoints (toPoints v) = v` exactly in the rational model
(hence within floating-point tolerance in the source), and both conversions
are linear in their argument. -/
theorem scaleModeRoundTrip :
    ∀ (m : ScaleMode) (v a u w : ℚ),
      fromPoints m (toPoints m v) = v ∧
      toPoints m (a * v) = a * toPoints m v ∧
      toPoints m (u + w) = toPoints m u + toPoints m w ∧
      fromPoints m (a * v) = a * fromPoints m v ∧
      fromPoints m (u + w) = fromPoints m u + fromPoints m w := by
  intro m v a u w
  cases m <;>
    refine ⟨?_, ?_, ?_, ?_, ?_⟩ <;>
    simp only [toPoints, fromPoints] <;> ring

/-- C3: kerning-pair compression merges runs of zero-adjustment pairs into the
preceding entry's code list, is idempotent, returns a 0- or 1-element input
unchanged, and maps `[{A,10},{B,0},{C,0},{D,30}]` to `[{[A,B,C],10},{D,30}]`. -/
theorem compressKerningPairsSpec :
    (∀ pairs : List KerningPair,
      compressKerningPairs (compressKerningPairs pairs) = compressKerningPairs pairs) ∧
    (∀ pairs : List KerningPair, pairs.length ≤ 1 → compressKerningPairs pairs = pairs) ∧
    (∀ a b c d : Nat,
      compressKerningPairs
        [⟨KCode.single a, 10⟩, ⟨KCode.single b, 0⟩, ⟨KCode.single c, 0⟩, ⟨KCode.single d, 30⟩] =
      [⟨KCode.multi [a, b, c], 10⟩, ⟨KCode.single d, 30⟩]) := by
  refine ⟨?_, ?_, ?_⟩
  · intro pairs
    match pairs with
    | [] => rfl
    | [p] => rfl
    | p :: q :: ps =>
      show compressKerningPairs (compressLoop p (q :: ps)) = compressLoop p (q :: ps)
      obtain ⟨k, tl, heq⟩ := compressLoop_head_adjustment (q :: ps) p
      have hnz : ∀ r ∈ tl, r.adjustment ≠ 0 := by
        have htail := compressLoop_tail_nonzero (q :: ps) p
        rw [heq] at htail
        simpa using htail
      rw [heq]
      match tl, hnz with
      | [], _ => rfl
      | t :: ts, hnz =>
        show compressLoop ⟨k, p.adjustment⟩ (t :: ts) = _
        exact compressLoop_of_nonzero (t :: ts) _ hnz
  · intro pairs hlen
    match pairs, hlen with
    | [], _ => rfl
    | [p], _ => rfl
    | p :: q :: ps, hlen => simp at hlen
  · intro a b c d
    show compressLoop _ _ = _
    norm_num [compressLoop, mergeCode]

/-- C9: `createCode128` rejects the empty string, and rejects any input
containing a character outside the Code 128 A/B repertoire (such as `'€'`)
with an error identifying unencodable characters; no pattern is produced in
either case. -/
theorem createCode128Errors :
    createCode128 [] = Except.error "Input cannot be empty" ∧
    (∀ data : List Char, (∃ c ∈ data, possibleChars.contains c = false) →
      createCode128 data =
        Except.error "Input contains characters that cannot be encoded with Code 128") ∧
    createCode128 ['€'] =
      Except.error "Input contains characters that cannot be encoded with Code 128" := by
  refine ⟨rfl, ?_, ?_⟩
  · intro data ⟨c, hc, hnc⟩
    have hne : data ≠ [] := by
      rintro rfl
      exact absurd hc (List.not_mem_nil c)
    have hall : ¬ data.all (fun c => possibleChars.contains c) := by
      simp only [List.all_eq_true, Bool.not_eq_true]
      intro h
      exact absurd (h c hc) (by rw [hnc]; simp)
    rw [createCode128.eq_def, if_neg hne, if_pos hall]
  · rfl

/-- Witness for C3 at the one-element input `[{7, 5}]`. -/
theorem compressKerningPairsSpec_witness :
    compressKerningPairs [⟨KCode.single 7, 5⟩] = [⟨KCode.single 7, 5⟩] :=
  compressKerningPairsSpec.2.1 [⟨KCode.single 7, 5⟩] (by decide)

/-- Witness for C9 at the input `"a€"`. -/
theorem createCode128Errors_witness :
    createCode128 ['a', '€'] =
      Except.error "Input contains characters that cannot be encoded with Code 128" :=
  createCode128Errors.2.1 ['a', '€'] ⟨'€', by decide, by decide⟩

/-- C1: with at least one queued segment and a changed line style (width, cap,
join, or dash reference), each segment-adding call first emits the queued
segments as a stroke (move-to, segment operators, stroke) with no new style
operator before the stroke — so the stroke is drawn under the style applied at
path open — then emits the new style's diff operators, re-opens the path at
the current cursor capturing the new style (so a subsequent path uses it), and
only then queues the new segment. -/
theorem pathStyleSnapshotSpec (s : EState) (p c c1 c2 : Point) (x y w h : ℚ)
    (hseg : s.path.segments ≠ [])
    (hst : lineStyleChanged s.path.startLineStyle s.lineStyle) :
    pathLineTo p s = snapshotFlushResult s [Segment.line p] ∧
    pathQuadraticCurveTo c p s = snapshotFlushResult s [Segment.quadratic c p] ∧
    pathBezierCurveTo c1 c2 p s = snapshotFlushResult s [Segment.bezier c1 c2 p] ∧
    pathRectangle x y w h s = snapshotFlushResult s [Segment.rect x y w h] := by
  have hc := checkLineStyleChanged_of_changed s hseg hst
  refine ⟨?_, ?_, ?_, ?_⟩ <;>
    simp [pathLineTo, pathQuadraticCurveTo, pathBezierCurveTo, pathRectangle, hc,
      snapshotFlushResult]

/-- Witness for C1 at a concrete state with one queued segment and a width
change from 1/10 to 2. -/
theorem pathStyleSnapshotSpec_witness :
    c1State.path.segments ≠ [] ∧
    lineStyleChanged c1State.path.startLineStyle c1State.lineStyle ∧
    pathLineTo ⟨9, 9⟩ c1State = snapshotFlushResult c1State [Segment.line ⟨9, 9⟩] :=
  ⟨by decide, by decide,
    (pathStyleSnapshotSpec c1State ⟨9, 9⟩ ⟨1, 1⟩ ⟨2, 2⟩ ⟨3, 3⟩ 1 2 3 4
      (by decide) (by decide)).1⟩

/-- C2 counterexample: on a one-segment path with border = true, fill = false
and evenOdd = true, the terminal operator actually emitted is
close+fill(even-odd)+stroke, not the close+stroke the claim's decision-table
row `border ∧ ¬fill, any evenOdd` asserts. -/
theorem polygonTerminalCounterexample :
    (drawPolygon true false true c2State).ops.getLast? = some Op.opCloseEoFillStroke ∧
    some Op.opCloseEoFillStroke ≠ some Op.opCloseStroke := by
  exact ⟨by decide, by decide⟩

/-- C2 (amended): for a non-empty path with an unchanged line style, the flush
emits one move-to, the segment operators, and exactly one terminal operator
chosen with the even-odd flag taking precedence: border ∧ evenOdd →
close+fill(even-odd)+stroke; border ∧ ¬evenOdd ∧ fill →
close+fill(nonzero)+stroke; border alone → close+stroke; ¬border ∧ evenOdd →
even-odd fill; ¬border ∧ ¬evenOdd ∧ fill → nonzero fill; none → no operator is
emitted and the path is discarded (segments cleared). -/
theorem polygonTerminalSpec (b f e : Bool) (s : EState)
    (hseg : s.path.segments ≠ [])
    (hst : ¬ lineStyleChanged s.path.startLineStyle s.lineStyle) :
    drawPolygon b f e s =
      { s with
        ops := s.ops ++ ((polygonTerminal b f e).elim []
          (fun t => generatePathOperators s.path ++ [t]))
        path := { s.path with segments := [] }
        position := s.path.start } :=
  drawPolygon_of_same b f e s hseg hst

/-- Witness for the amended C2 at a concrete one-segment state with
border = true, fill = false, evenOdd = true. -/
theorem polygonTerminalSpec_witness :
    drawPolygon true false true c2State =
      { c2State with
        ops := c2State.ops ++ ((polygonTerminal true false true).elim []
          (fun t => generatePathOperators c2State.path ++ [t]))
        path := { c2State.path with segments := [] }
        position := c2State.path.start } :=
  polygonTerminalSpec true false true c2State (by decide) (by decide)

/-- C4: after `finishPolygon` on a path with at least one queued segment (and
no pending style change), the cursor equals the path's starting point;
`finishLine` never moves the cursor, so after a segment-adding call followed
by `finishLine` the cursor is the last segment's endpoint. -/
theorem cursorAfterFlushSpec (s : EState) (b f e : Bool) (p : Point)
    (hseg : s.path.segments ≠ [])
    (hst : ¬ lineStyleChanged s.path.startLineStyle s.lineStyle) :
    (finishPolygon b f e s).position = s.path.start ∧
    (∀ t : EState, (finishLine t).position = t.position) ∧
    (finishLine (epLineTo p s)).position = toPointsObj s.scaleMode p := by
  refine ⟨?_, finishLine_position, ?_⟩
  · rw [finishPolygon, drawPolygon_of_same b f e s hseg hst]
    rfl
  · rw [finishLine_position]
    rfl

/-- Witness for C4 at a concrete one-segment state. -/
theorem cursorAfterFlushSpec_witness :
    (finishPolygon true false false c4State).position = c4State.path.start ∧
    (finishLine (epLineTo ⟨9, 9⟩ c4State)).position =
      toPointsObj c4State.scaleMode ⟨9, 9⟩ :=
  ⟨(cursorAfterFlushSpec c4State true false false ⟨9, 9⟩ (by decide) (by decide)).1,
   (cursorAfterFlushSpec c4State true false false ⟨9, 9⟩ (by decide) (by decide)).2.2⟩

/-- C5 counterexample: the `position` property setter changes the cursor of a
state with a pending open path without emitting any operator and without
clearing the queued segments — a cursor-changing public operation that does
not flush first, contradicting the claim. -/
theorem flushBeforeStateChangeCounterexample :
    c5State.path.segments ≠ [] ∧
    (setPositionProp ⟨1, 1⟩ c5State).position ≠ c5State.position ∧
    (setPositionProp ⟨1, 1⟩ c5State).ops = c5State.ops ∧
    (setPositionProp ⟨1, 1⟩ c5State).path.segments = c5State.path.segments :=
  ⟨by decide, by decide, by decide, by decide⟩

/-- C5 (amended): `moveTo`, `offsetTo` and the `foreColor`/`fillColor` setters
first flush a pending open path (stroking the queued segments and clearing
them) before mutating cursor or color, while the `position`/`x`/`y` property
setters mutate the cursor directly, emitting nothing and leaving the pending
path untouched. -/
theorem flushBeforeStateChangeSpec (s : EState) (p : Point) (v : ℚ) (c c2 : Nat)
    (hseg : s.path.segments ≠ []) :
    ((epMoveTo p s).path.segments = [] ∧
      (epMoveTo p s).ops = s.ops ++ generatePathOperators s.path ++ [Op.opStroke] ++
        applyLineStyleOps s.lineStyle s.lastSetLineStyle) ∧
    ((epOffsetTo p s).path.segments = [] ∧
      (epOffsetTo p s).ops = s.ops ++ generatePathOperators s.path ++ [Op.opStroke] ++
        applyLineStyleOps s.lineStyle s.lastSetLineStyle) ∧
    ((setForeColorProp c s).path.segments = [] ∧
      (setForeColorProp c s).ops = s.ops ++ generatePathOperators s.path ++ [Op.opStroke] ++
        applyLineStyleOps s.lineStyle s.lastSetLineStyle ++ [Op.opSetStrokingColor c]) ∧
    ((setFillColorProp c2 s).path.segments = [] ∧
      (setFillColorProp c2 s).ops = s.ops ++ generatePathOperators s.path ++ [Op.opStroke] ++
        applyLineStyleOps s.lineStyle s.lastSetLineStyle ++ [Op.opSetFillingColor c2]) ∧
    ((setPositionProp p s).ops = s.ops ∧ (setPositionProp p s).path = s.path) ∧
    ((setXProp v s).ops = s.ops ∧ (setXProp v s).path = s.path) ∧
    ((setYProp v s).ops = s.ops ∧ (setYProp v s).path = s.path) := by
  have hf := finishLine_of_pending s hseg
  exact ⟨⟨by simp [epMoveTo, hf], by simp [epMoveTo, hf]⟩,
    ⟨by simp [epOffsetTo, hf], by simp [epOffsetTo, hf]⟩,
    ⟨by simp [setForeColorProp, hf], by simp [setForeColorProp, hf]⟩,
    ⟨by simp [setFillColorProp, hf], by simp [setFillColorProp, hf]⟩,
    ⟨rfl, rfl⟩, ⟨rfl, rfl⟩, ⟨rfl, rfl⟩⟩

/-- Witness for the amended C5 at a concrete pending-path state. -/
theorem flushBeforeStateChangeSpec_witness :
    (epMoveTo ⟨1, 2⟩ c5bState).path.segments = [] ∧
    (epMoveTo ⟨1, 2⟩ c5bState).ops =
      c5bState.ops ++ generatePathOperators c5bState.path ++ [Op.opStroke] ++
        applyLineStyleOps c5bState.lineStyle c5bState.lastSetLineStyle :=
  (flushBeforeStateChangeSpec c5bState ⟨1, 2⟩ 3 4 5 (by decide)).1

/-- C6 counterexample: with character spacing 2 (trailing correction
`corr = 2`), justifying the zero-space line `"abc"` of natural width 30
changes its width to 28 — not the claimed no-op — and for the one-space line
`"a b"` the word spacing applied is not `(targetWidth − naturalWidth) /
numberOfSpaces = (100 − 30) / 1`. -/
theorem justificationCounterexample :
    countSpaces ['a', 'b', 'c'] = 0 ∧
    (computeJustify true (some 100) 2 1 ['a', 'b', 'c'] 30).width ≠ 30 ∧
    (computeJustify true (some 100) 2 1 ['a', ' ', 'b'] 30).wordSpacing ≠
      (100 - 30) / 1 := by
  refine ⟨by decide, ?_, ?_⟩
  · have h0 : countSpaces ['a', 'b', 'c'] = 0 := by decide
    show ((if 0 < countSpaces ['a', 'b', 'c'] then
        (⟨100, (100 - (30 - 2)) / (countSpaces ['a', 'b', 'c'] : ℚ) / 1⟩ : JustifyResult)
      else ⟨30 - 2, 0⟩) : JustifyResult).width ≠ 30
    rw [if_neg (by simp [h0])]
    norm_num
  · have h1 : countSpaces ['a', ' ', 'b'] = 1 := by decide
    show ((if 0 < countSpaces ['a', ' ', 'b'] then
        (⟨100, (100 - (30 - 2)) / (countSpaces ['a', ' ', 'b'] : ℚ) / 1⟩ : JustifyResult)
      else ⟨30 - 2, 0⟩) : JustifyResult).wordSpacing ≠ (100 - 30) / 1
    rw [if_pos (by simp [h1])]
    rw [h1]
    norm_num

/-- C6 (amended): justification arithmetic as implemented — no change without
`font.justify` and a supplied width; with both and at least one space, the
word spacing is `(justifyWidth − (naturalWidth − corr)) / numberOfSpaces /
stretchX` (where `corr` is the trailing character-spacing correction) and the
width becomes the justification width; with zero spaces the word spacing is 0
but the recorded width is the natural width minus `corr` (a strict no-op only
when the correction is zero); `numberOfSpaces` equals the count of literal
space characters; and the wrap loop passes a justification width exactly to
the non-final rendered lines (the final line gets none). -/
theorem justificationSpec :
    (∀ (jw : Option ℚ) (corr stx nw : ℚ) (text : List Char),
      computeJustify false jw corr stx text nw = ⟨nw, 0⟩) ∧
    (∀ (j : Bool) (corr stx nw : ℚ) (text : List Char),
      computeJustify j none corr stx text nw = ⟨nw, 0⟩) ∧
    (∀ (jw corr stx nw : ℚ) (text : List Char), 0 < countSpaces text →
      computeJustify true (some jw) corr stx text nw =
        ⟨jw, (jw - (nw - corr)) / (countSpaces text : ℚ) / stx⟩) ∧
    (∀ (jw corr stx nw : ℚ) (text : List Char), countSpaces text = 0 →
      computeJustify true (some jw) corr stx text nw = ⟨nw - corr, 0⟩) ∧
    (∀ text : List Char, countSpaces text = text.count ' ') ∧
    (∀ (e : Bool) (m : List Char → ℚ) (corr W : ℚ) (text : List Char),
      (∃ l, (writeWrappedLines e m corr W text).getLast? = some (l, none)) ∧
      ∀ pr ∈ (writeWrappedLines e m corr W text).dropLast, pr.2 = some W) := by
  refine ⟨?_, ?_, ?_, ?_, ?_, ?_⟩
  · intro jw corr stx nw text
    cases jw <;> rfl
  · intro j corr stx nw text
    cases j <;> rfl
  · intro jw corr stx nw text h
    show (if 0 < countSpaces text then
        (⟨jw, (jw - (nw - corr)) / (countSpaces text : ℚ) / stx⟩ : JustifyResult)
      else ⟨nw - corr, 0⟩) =
      ⟨jw, (jw - (nw - corr)) / (countSpaces text : ℚ) / stx⟩
    rw [if_pos h]
  · intro jw corr stx nw text h
    show (if 0 < countSpaces text then
        (⟨jw, (jw - (nw - corr)) / (countSpaces text : ℚ) / stx⟩ : JustifyResult)
      else ⟨nw - corr, 0⟩) = ⟨nw - corr, 0⟩
    rw [if_neg (by simp [h])]
  · intro text
    rw [countSpaces, length_splitOnSp]
    simp
  · intro e m corr W text
    exact ⟨wrapLoop_getLast_none e m corr W (splitOnSp text) [] 0,
           wrapLoop_dropLast_some e m corr W (splitOnSp text) [] 0⟩

/-- Witness for the amended C6 at a concrete zero-space line. -/
theorem justificationSpec_witness :
    computeJustify true (some 100) 2 1 ['a', 'b', 'c'] 30 = ⟨30 - 2, 0⟩ :=
  justificationSpec.2.2.2.1 100 2 1 30 ['a', 'b', 'c'] (by decide)

/-- C7: for any text and any wrap width at least the width of every single
word, no rendered line of the greedy wrap exceeds the requested width, with
line widths measured net of the trailing character-spacing correction `corr`
(assumed non-negative): the source's additive accounting (word widths plus
space widths) for embedded fonts, the measured width of the joined line for
standard fonts. -/
theorem wordWrapWidthBound (e : Bool) (m : List Char → ℚ) (corr W : ℚ)
    (text : List Char)
    (hcorr : 0 ≤ corr)
    (hwords : ∀ w ∈ splitOnSp text, m w ≤ W) :
    ∀ l j, (l, j) ∈ writeWrappedLines e m corr W text → l ≠ [] →
      (if e = true then lineWidthSum m l - corr ≤ W else m (joinSp l) - corr ≤ W) := by
  intro l j hmem hl
  refine wrapLoop_bound e m corr W hcorr (splitOnSp text) [] 0 hwords ?_ ?_ l j hmem hl
  · intro _
    rfl
  · intro hfalse
    exact absurd rfl hfalse

/-- Witness for C7: wrapping `"ab cd"` at width 2 with unit character widths
produces the line `"ab"` within the bound. -/
theorem wordWrapWidthBound_witness :
    lineWidthSum (fun w => (w.length : ℚ)) [['a', 'b']] - 0 ≤ 2 := by
  have hsplit : splitOnSp ['a', 'b', ' ', 'c', 'd'] = [['a', 'b'], ['c', 'd']] := by decide
  have hwords : ∀ w ∈ splitOnSp ['a', 'b', ' ', 'c', 'd'],
      (fun w => (w.length : ℚ)) w ≤ 2 := by
    rw [hsplit]
    intro w hw
    simp only [List.mem_cons, List.mem_singleton] at hw
    rcases hw with rfl | rfl | h
    · norm_num
    · norm_num
    · exact absurd h (List.not_mem_nil w)
  have hmem : ([['a', 'b']], some 2) ∈
      writeWrappedLines true (fun w => (w.length : ℚ)) 0 2 ['a', 'b', ' ', 'c', 'd'] := by
    rw [writeWrappedLines, hsplit, wrapLoop_cons_t, if_neg (by simp), wrapLoop_cons_t,
      if_pos (by constructor; simp; norm_num)]
    exact List.mem_cons_self _ _
  exact wordWrapWidthBound true (fun w => (w.length : ℚ)) 0 2 ['a', 'b', ' ', 'c', 'd']
    (by norm_num) hwords [['a', 'b']] (some 2) hmem (by simp)

/-- C8: quiet-zone handling detects an existing light margin by scanning the
border cells (10 bars at each end for 1-D, 4 modules on all four sides for
2-D); with the margin present, requesting a quiet zone leaves the pattern
unchanged and declining one strips the margin (the interior remains, shifted);
with no margin present, requesting a quiet zone synthesizes a light margin of
the standard width around the original cells. -/
theorem quietZoneSpec :
    (∀ p : List Bool, hasQuietZone1D p = true → adjustQuietZone1D p true = p) ∧
    (∀ p : List Bool, hasQuietZone1D p = true →
      (adjustQuietZone1D p false).length = p.length - 20 ∧
      ∀ i < p.length - 20, (adjustQuietZone1D p false).getD i false = p.getD (i + 10) false) ∧
    (∀ p : List Bool, hasQuietZone1D p = false →
      adjustQuietZone1D p true = List.replicate 10 false ++ p ++ List.replicate 10 false) ∧
    (∀ (n : Nat) (dark : Nat → Nat → Bool), n ≠ 0 → hasQuietZone2D n dark = true →
      adjustQuietZone2D n dark true = Except.ok (n, dark)) ∧
    (∀ (n : Nat) (dark : Nat → Nat → Bool), 8 < n → hasQuietZone2D n dark = true →
      adjustQuietZone2D n dark false =
        Except.ok (n - 8, fun row col => dark (row + 4) (col + 4))) ∧
    (∀ (n : Nat) (dark : Nat → Nat → Bool), n ≠ 0 → hasQuietZone2D n dark = false →
      adjustQuietZone2D n dark true =
        Except.ok (n + 8, fun row col =>
          if row < 4 ∨ n + 4 ≤ row ∨ col < 4 ∨ n + 4 ≤ col then false
          else dark (row - 4) (col - 4))) := by
  refine ⟨?_, ?_, ?_, ?_, ?_, ?_⟩
  · intro p h
    simp [adjustQuietZone1D, h]
  · intro p h
    have h10 : 10 ≤ p.length := by
      have h2 := h
      unfold hasQuietZone1D at h2
      simp only [Bool.and_eq_true, decide_eq_true_eq] at h2
      exact h2.1
    constructor
    · simp only [adjustQuietZone1D, h, Bool.true_and, Bool.not_false, Bool.and_true,
        if_true, List.length_take, List.length_drop]
      omega
    · intro i hi
      simp only [adjustQuietZone1D, h, Bool.true_and, Bool.not_false, Bool.and_true, if_true]
      rw [List.getD_eq_getElem?_getD, List.getD_eq_getElem?_getD,
        List.getElem?_take_of_lt hi, List.getElem?_drop, Nat.add_comm]
  · intro p h
    simp [adjustQuietZone1D, h]
  · intro n dark hn h
    simp [adjustQuietZone2D, hn, h]
  · intro n dark h8 h
    have hn : n ≠ 0 := by omega
    have hle : ¬ n ≤ 8 := by omega
    simp [adjustQuietZone2D, hn, h, hle]
  · intro n dark hn h
    simp [adjustQuietZone2D, hn, h]

/-- Witness for C8: a 20-bar all-light pattern is already a quiet-zone-bearing
pattern and is left unchanged; stripping the quiet zone from an all-light 9×9
matrix yields the 1×1 interior. -/
theorem quietZoneSpec_witness :
    adjustQuietZone1D (List.replicate 20 false) true = List.replicate 20 false ∧
    adjustQuietZone2D 9 (fun _ _ => false) false =
      Except.ok (9 - 8, fun row col => (fun _ _ => false : Nat → Nat → Bool) (row + 4) (col + 4)) :=
  ⟨quietZoneSpec.1 (List.replicate 20 false) (by decide),
   quietZoneSpec.2.2.2.2.1 9 (fun _ _ => false) (by decide) (by decide)⟩

end EasyPdfM
